import Mathlib

/-!
# A verification model of the incremental Telegram collection pipeline

This file is a shallow embedding, in Lean, of `telegram_collector.py` —
specifically of the incremental multi-channel collection pipeline centred on
`TelegramCollector.get_new_messages_without_duplication` and its helpers
`_load_last_message_tracking`, `_save_last_message_tracking`,
`download_media` and the in-loop reply resolution.

Modelling conventions:

* Python integers become `Int` (message ids, watermark values, view counts).
  The watermark dictionary is keyed by `str(entity.id)` in Python; since
  `str` is injective on integers we key the model directly by the integer id.
* Python `datetime` values become the `DT` structure, the UTC wall-clock
  tuple (year, month, day, hour, minute, second, microsecond).  Telethon
  delivers message dates as timezone-aware UTC datetimes; the code's
  `replace(tzinfo=timezone.utc)` on a naive datetime is the identity on this
  tuple, so naive timestamps are interpreted as UTC, exactly as the code does.
  Python's `datetime` comparison (same tzinfo) is lexicographic on this
  tuple (`DT.cmp` below); `datetime.isoformat()` is modelled character by
  character by `DT.isoChars`.
* External collaborators (the Telethon client and the filesystem) enter as an
  explicit `Env` of functions; a call that can raise returns `Except String`.
  `messages.GetHistoryRequest` follows the documented Telegram API contract:
  a positive `min_id` is an exclusive lower bound — only messages with id
  strictly greater than `min_id` are returned, newest first, at most `limit`.
  The per-channel history is a fixed list for the duration of one run.
* Python string comparison (the `list.sort` key is the `date` isoformat
  string) is lexicographic on code points: `strCmp`/`strLe` on `List Nat`.
* `datetime.now(timezone.utc) - timedelta(hours=fallback_hours)` is computed
  by the standard library; the model takes the resulting cutoff instant from
  the environment (`Env.sinceDate`).  The code samples `now` once per
  channel; the model uses one run-level instant, which with a monotone clock
  is the conservative choice.
-/

/-! ## Python string comparison on code points -/

/-- Three-way comparison of natural numbers, written out so that it unfolds
definitionally in proofs. -/
def natCmp (n m : Nat) : Ordering :=
  if n < m then Ordering.lt else if m < n then Ordering.gt else Ordering.eq

/-- Lexicographic three-way comparison of code-point sequences; this is the
comparison Python performs on `str` values. -/
def strCmp : List Nat → List Nat → Ordering
  | [], [] => Ordering.eq
  | [], _ :: _ => Ordering.lt
  | _ :: _, [] => Ordering.gt
  | a :: as, b :: bs =>
    if a < b then Ordering.lt else if b < a then Ordering.gt else strCmp as bs

/-- Python `s <= t` on strings. -/
def strLe (a b : List Nat) : Bool :=
  match strCmp a b with
  | Ordering.gt => false
  | _ => true

/-! ## Datetimes

`DT` is a timezone-aware UTC `datetime` value: the wall-clock tuple. -/

structure DT where
  year : Nat
  month : Nat
  day : Nat
  hour : Nat
  minute : Nat
  second : Nat
  usec : Nat
deriving DecidableEq, Repr

/-- The digit-count bounds every real `datetime` satisfies (`year ≤ 9999`,
two-digit month/day/hour/minute/second, `microsecond < 10^6`).  These are the
bounds under which the decimal renderings below are fixed width. -/
def DT.valid (d : DT) : Prop :=
  d.year < 10000 ∧ d.month < 100 ∧ d.day < 100 ∧ d.hour < 100 ∧
    d.minute < 100 ∧ d.second < 100 ∧ d.usec < 1000000

instance (d : DT) : Decidable d.valid := by
  unfold DT.valid; infer_instance

/-- The chronological instant of a UTC datetime, as a single mixed-radix
number: later instants have strictly larger keys, and for valid datetimes
this order coincides with Python's componentwise `datetime` comparison. -/
def DT.toKey (d : DT) : Nat :=
  (((((d.year * 100 + d.month) * 100 + d.day) * 100 + d.hour) * 100 +
      d.minute) * 100 + d.second) * 1000000 + d.usec

/-- Python `datetime` three-way comparison for two values with the same
`tzinfo`: lexicographic on the component tuple. -/
def DT.cmp (a b : DT) : Ordering :=
  (natCmp a.year b.year).then ((natCmp a.month b.month).then
    ((natCmp a.day b.day).then ((natCmp a.hour b.hour).then
      ((natCmp a.minute b.minute).then ((natCmp a.second b.second).then
        (natCmp a.usec b.usec))))))

/-- Python `a < b` on datetimes (both interpreted in UTC). -/
def DT.ltb (a b : DT) : Bool :=
  match DT.cmp a b with
  | Ordering.lt => true
  | _ => false

/-- Big-endian, zero-padded, fixed-width decimal rendering of `n` as code
points: `padDigits w n` is the last `w` decimal digits of `n`. -/
def padDigits : Nat → Nat → List Nat
  | 0, _ => []
  | w + 1, n => (48 + n / 10 ^ w) :: padDigits w (n % 10 ^ w)

/-- `datetime.isoformat()` of an aware UTC datetime, as the list of code
points: `YYYY-MM-DDTHH:MM:SS[.ffffff]+00:00`, where the microsecond part is
present exactly when the microsecond is nonzero. -/
def DT.isoChars (d : DT) : List Nat :=
  padDigits 4 d.year ++ 45 :: padDigits 2 d.month ++ 45 :: padDigits 2 d.day ++
    84 :: padDigits 2 d.hour ++ 58 :: padDigits 2 d.minute ++
      58 :: padDigits 2 d.second ++
        (if d.usec = 0 then [] else 46 :: padDigits 6 d.usec) ++
          [43, 48, 48, 58, 48, 48]

/-! ## The data model -/

/-- The media payload attached to a raw message, when present: the code
distinguishes `MessageMediaPhoto` and `MessageMediaDocument` and treats every
other payload as media of unknown kind. -/
inductive MediaPayload where
  | photo : MediaPayload
  | document : MediaPayload
  | other : MediaPayload
deriving DecidableEq, Repr

/-- A message as delivered by the source client: per-channel id, date, body
text, optional media payload, optional reply-parent id, engagement counters. -/
structure RawMsg where
  id : Int
  date : DT
  text : String
  media : Option MediaPayload
  replyTo : Option Int
  views : Option Int
  forwards : Option Int
deriving DecidableEq, Repr

/-- The resolved channel entity (`client.get_entity`): only its numeric id is
consumed by the pipeline. -/
structure Entity where
  id : Int
deriving DecidableEq, Repr

/-- The result of `get_channel_info`: the channel metadata copied into every
normalized message. -/
structure ChannelInfo where
  title : Option String
  username : Option String
  description : Option String
deriving DecidableEq, Repr

/-- The `message_data` dictionary built for each collected message. -/
structure Normalized where
  id : Int
  channelId : Int
  channelTitle : Option String
  channelUsername : Option String
  channelDescription : Option String
  date : DT
  text : String
  mediaPath : Option String
  mediaType : Option String
  views : Option Int
  forwards : Option Int
  replyToMsgId : Option Int
  replyToMsgText : Option String
deriving DecidableEq, Repr

/-- The in-memory watermark mapping `last_message_tracking`:
resolved channel id → last processed message id. -/
def Tracking : Type := Int → Option Int

/-- Dictionary write `tracking[cid] = v`. -/
def setTrack (tr : Tracking) (cid : Int) (v : Int) : Tracking :=
  fun k => if k = cid then some v else tr k

/-- `last_message_tracking[channel_id]` when the entry is known to exist
(defaulting to 0 otherwise, a value the code never reads). -/
def lastId (tr : Tracking) (cid : Int) : Int :=
  match tr cid with
  | some w => w
  | none => 0

/-- The empty mapping. -/
def emptyTracking : Tracking := fun _ => none

/-- The state of the watermark backing file
`data/last_message_tracking.json` as seen by one load. -/
inductive FileState where
  | absent : FileState
  | unreadable : FileState
  | malformed : FileState
  | wellFormed : List (Int × Int) → FileState

/-- `os.path.exists(tracking_file)`. -/
def fileExists : FileState → Bool
  | FileState.absent => false
  | _ => true

/-- `open` + `json.load` on an existing file: `some entries` when the file is
readable and parses to the stored mapping, `none` when reading or parsing
raises. -/
def parseTracking : FileState → Option (List (Int × Int))
  | FileState.wellFormed entries => some entries
  | _ => none

/-- The mapping denoted by a parsed JSON object (first binding wins, as in a
JSON object with distinct keys). -/
def toTracking (entries : List (Int × Int)) : Tracking :=
  fun cid => (entries.find? (fun p => p.1 == cid)).map (fun p => p.2)

/-- `_load_last_message_tracking` (telegram_collector.py 243-254): if the
file exists, try to parse it, and on any exception fall through to the empty
mapping; a missing file also yields the empty mapping.  The function is total
— no file state makes it raise. -/
def loadLastMessageTracking (fs : FileState) : Tracking :=
  if fileExists fs then
    match parseTracking fs with
    | some entries => toTracking entries
    | none => emptyTracking
  else emptyTracking

/-- `_save_last_message_tracking` (telegram_collector.py 256-265): the file
write is attempted inside `try`; an exception is caught and only logged, so
the function returns normally regardless of the outcome of the write. -/
def saveLastMessageTracking (writeResult : Except String Unit) : Unit :=
  match writeResult with
  | Except.ok _ => ()
  | Except.error _ => ()

/-- Contents of the watermark backing file at the successive interruption
points of `_save_last_message_tracking` (telegram_collector.py 256-265).
The code runs `open(tracking_file, "w")`, which truncates the existing file
in place, and then `json.dump` writes the serialized mapping into it; no
temporary file and no rename are involved.  Element 0 is the content before
the call (`oldContent`), element 1 the content after `open` has truncated the
file but before `json.dump` has written (the empty file), element 2 the
content once the dump has completed (`newContent`). -/
def saveInterruptionContents (oldContent newContent : String) : List String :=
  [oldContent, "", newContent]

/-! ## The environment: Telethon client and filesystem -/

/-- The external collaborators of one collection run.  Every operation that
can raise in Python returns `Except String`. -/
structure Env where
  /-- `client.get_entity(username)`. -/
  getEntity : String → Except String Entity
  /-- `get_channel_info(username)`. -/
  getChannelInfo : String → Except String ChannelInfo
  /-- The channel's message history (newest first) as held by the source at
  this run, or a fetch failure; `GetHistoryRequest` reads from it. -/
  source : Int → Except String (List RawMsg)
  /-- `client.download_media(message.media, file=...)`: the local path, or
  `none`, or a raised exception. -/
  clientDownload : RawMsg → Except String (Option String)
  /-- `client.get_messages(entity, ids=reply_to_msg_id)`. -/
  getMessages : Int → Int → Except String (Option RawMsg)
  /-- `datetime.now(timezone.utc) - timedelta(hours=fallback_hours)`. -/
  sinceDate : Nat → DT
  /-- The watermark backing file as found at the start of the run. -/
  trackingFile : FileState
  /-- The file write performed by `_save_last_message_tracking`. -/
  save : Tracking → Except String Unit

/-- `messages.GetHistoryRequest(peer, limit, min_id, ...)` against a fixed
history: per the Telegram API contract, a `min_id` argument restricts the
result to messages with id strictly greater than `min_id`, and at most
`limit` messages (the newest ones, the history being newest first) are
returned. -/
def getHistory (history : List RawMsg) (minId : Int) (limit : Nat) :
    List RawMsg :=
  (history.filter (fun m => decide (minId < m.id))).take limit

/-- `download_media` (telegram_collector.py 60-75): if the message has a
media payload, call `client.download_media` — any exception it raises
propagates to the caller — otherwise return `None`. -/
def downloadMedia (env : Env) (m : RawMsg) : Except String (Option String) :=
  match m.media with
  | some _ => env.clientDownload m
  | none => Except.ok none

/-- The in-loop reply resolution (telegram_collector.py 181-197): scan the
current raw batch for the parent id; if absent, fetch it by id from the
server; any exception is caught (logged as a warning) and leaves the text
`None`, as does a parent that cannot be found. -/
def resolveReplyText (env : Env) (cid : Int) (batch : List RawMsg)
    (rid : Int) : Option String :=
  match batch.find? (fun m => m.id == rid) with
  | some orig => some orig.text
  | none =>
    match env.getMessages cid rid with
    | Except.ok (some orig) => some orig.text
    | Except.ok none => none
    | Except.error _ => none

/-- One iteration of the per-message loop (telegram_collector.py 168-217):
download media (a raised exception propagates), classify the media payload,
resolve the reply parent, and build the `message_data` record.  The `date`
field of the record is `msg.date` (stored as its isoformat string in Python;
the model keeps the datetime and renders it where the string is consumed). -/
def processMsg (env : Env) (cid : Int) (info : ChannelInfo)
    (batch : List RawMsg) (m : RawMsg) : Except String Normalized :=
  match downloadMedia env m with
  | Except.error e => Except.error e
  | Except.ok mediaPath =>
    Except.ok
      { id := m.id
        channelId := cid
        channelTitle := info.title
        channelUsername := info.username
        channelDescription := info.description
        date := m.date
        text := m.text
        mediaPath := mediaPath
        mediaType :=
          match m.media with
          | some MediaPayload.photo => some "photo"
          | some MediaPayload.document => some "document"
          | _ => none
        views := m.views
        forwards := m.forwards
        replyToMsgId := m.replyTo
        replyToMsgText :=
          match m.replyTo with
          | some rid => resolveReplyText env cid batch rid
          | none => none }

/-- The per-message loop over the kept messages of one channel; the first
raised exception aborts the loop (and, upstream, the whole channel). -/
def processMsgs (env : Env) (cid : Int) (info : ChannelInfo)
    (batch : List RawMsg) : List RawMsg → Except String (List Normalized)
  | [] => Except.ok []
  | m :: rest =>
    match processMsg env cid info batch m with
    | Except.error e => Except.error e
    | Except.ok n =>
      match processMsgs env cid info batch rest with
      | Except.error e => Except.error e
      | Except.ok ns => Except.ok (n :: ns)

/-- `use_id_tracking` (telegram_collector.py 118): the channel has a tracking
entry and that entry is positive. -/
def useIdTracking (tr : Tracking) (cid : Int) : Bool :=
  match tr cid with
  | some w => decide (0 < w)
  | none => false

/-- `max(msg["id"] for msg in channel_messages)` (nonempty list). -/
def newestId : List Normalized → Int
  | [] => 0
  | m :: rest => rest.foldl (fun a x => max a x.id) m.id

/-- The tracking update after one channel (telegram_collector.py 219-226):
if messages were produced in cursor mode, the entry becomes
`max(newest_id, existing)`; if messages were produced in fallback mode, the
entry is initialized to `newest_id`; with no messages the mapping is
untouched. -/
def updateTracking (tr : Tracking) (cid : Int) (useId : Bool)
    (msgs : List Normalized) : Tracking :=
  if msgs.isEmpty then tr
  else if useId then setTrack tr cid (max (newestId msgs) (lastId tr cid))
  else setTrack tr cid (newestId msgs)

/-- The raw batch `messages.messages` retrieved for one channel
(telegram_collector.py 120-152): in cursor mode the request carries
`min_id = last_message_id + 1`, in fallback mode `min_id = 0`. -/
def fetchedFor (limit : Nat) (tracking : Tracking) (cid : Int)
    (history : List RawMsg) : List RawMsg :=
  if useIdTracking tracking cid then
    getHistory history (lastId tracking cid + 1) limit
  else getHistory history 0 limit

/-- The messages that survive the in-loop date filter
(telegram_collector.py 158-166): in cursor mode every fetched message, in
fallback mode only those not strictly older than the cutoff. -/
def keptFor (env : Env) (limit fallbackHours : Nat) (tracking : Tracking)
    (cid : Int) (history : List RawMsg) : List RawMsg :=
  if useIdTracking tracking cid then fetchedFor limit tracking cid history
  else (fetchedFor limit tracking cid history).filter
    (fun m => ! DT.ltb m.date (env.sinceDate fallbackHours))

/-- The whole per-channel body of the loop in
`get_new_messages_without_duplication` (telegram_collector.py 108-230):
resolve the entity, get the channel info, choose cursor or fallback
retrieval, fetch, date-filter in fallback mode, process each message, and
update the tracking entry.  Any raised exception yields `Except.error`; the
caller catches it, so a failing channel contributes nothing and leaves the
tracking mapping exactly as it was. -/
def processChannel (env : Env) (limit fallbackHours : Nat) (tracking : Tracking)
    (username : String) : Except String (List Normalized × Tracking) :=
  match env.getEntity username with
  | Except.error e => Except.error e
  | Except.ok entity =>
    match env.getChannelInfo username with
    | Except.error e => Except.error e
    | Except.ok channelInfo =>
      match env.source entity.id with
      | Except.error e => Except.error e
      | Except.ok history =>
        match processMsgs env entity.id channelInfo
            (fetchedFor limit tracking entity.id history)
            (keptFor env limit fallbackHours tracking entity.id history) with
        | Except.error e => Except.error e
        | Except.ok msgs =>
          Except.ok (msgs,
            updateTracking tracking entity.id
              (useIdTracking tracking entity.id) msgs)

/-- The channel loop (telegram_collector.py 107-233): each channel is
processed with the current tracking state; a raised exception is caught and
logged, and the loop continues with the corpus and tracking unchanged. -/
def collectChannels (env : Env) (limit fallbackHours : Nat) :
    List String → Tracking → List Normalized × Tracking
  | [], tr => ([], tr)
  | u :: rest, tr =>
    match processChannel env limit fallbackHours tr u with
    | Except.ok (msgs, tr') =>
      let res := collectChannels env limit fallbackHours rest tr'
      (msgs ++ res.1, res.2)
    | Except.error _ => collectChannels env limit fallbackHours rest tr

/-- The sort key relation of `all_messages.sort(key=lambda x: x["date"])`:
Python string `<=` on the isoformat renderings of the dates. -/
def normLe (a b : Normalized) : Prop :=
  strLe a.date.isoChars b.date.isoChars = true

instance : DecidableRel normLe := by
  unfold normLe; infer_instance

/-- `all_messages.sort(key=lambda x: x["date"])` (telegram_collector.py 239):
a comparison sort by the isoformat string of the date. -/
def sortByDateKey (l : List Normalized) : List Normalized :=
  List.insertionSort normLe l

/-- The final tracking mapping produced by the channel loop, starting from a
given loaded mapping. -/
def finalTrackingFrom (env : Env) (channels : List String)
    (limit fallbackHours : Nat) (tr0 : Tracking) : Tracking :=
  (collectChannels env limit fallbackHours channels tr0).2

/-- The corpus returned by the channel loop, starting from a given loaded
mapping, after the final sort. -/
def runCorpusFrom (env : Env) (channels : List String)
    (limit fallbackHours : Nat) (tr0 : Tracking) : List Normalized :=
  sortByDateKey (collectChannels env limit fallbackHours channels tr0).1

/-- `get_new_messages_without_duplication` (telegram_collector.py 92-241):
load the tracking mapping, run the channel loop, save the updated mapping
(any save exception is swallowed inside `_save_last_message_tracking`), sort
by date and return the corpus.  The result type records the possible
outcomes of the Python call: a returned corpus or a raised exception; as
written, the function always returns. -/
def getNewMessagesWithoutDuplication (env : Env) (channels : List String)
    (limit fallbackHours : Nat) : Except String (List Normalized) :=
  let tr0 := loadLastMessageTracking env.trackingFile
  let trF := finalTrackingFrom env channels limit fallbackHours tr0
  let _ := saveLastMessageTracking (env.save trF)
  Except.ok (runCorpusFrom env channels limit fallbackHours tr0)

/-! ## Facts about the three-way comparisons -/

theorem then_lt (o : Ordering) : Ordering.lt.then o = Ordering.lt := rfl

theorem then_gt (o : Ordering) : Ordering.gt.then o = Ordering.gt := rfl

theorem then_eq (o : Ordering) : Ordering.eq.then o = o := rfl

theorem then_assoc (a b c : Ordering) : (a.then b).then c = a.then (b.then c) := by
  cases a <;> rfl

theorem then_right_eq : ∀ o : Ordering, o.then Ordering.eq = o
  | Ordering.lt => rfl
  | Ordering.eq => rfl
  | Ordering.gt => rfl

theorem natCmp_of_lt {n m : Nat} (h : n < m) : natCmp n m = Ordering.lt := by
  unfold natCmp
  rw [if_pos h]

theorem natCmp_of_gt {n m : Nat} (h : m < n) : natCmp n m = Ordering.gt := by
  unfold natCmp
  rw [if_neg (by omega), if_pos h]

theorem natCmp_self (n : Nat) : natCmp n n = Ordering.eq := by
  unfold natCmp
  rw [if_neg (by omega), if_neg (by omega)]

theorem natCmp_mul_add (a a' : Nat) {R b b' : Nat} (hb : b < R) (hb' : b' < R) :
    natCmp (a * R + b) (a' * R + b') = (natCmp a a').then (natCmp b b') := by
  rcases Nat.lt_trichotomy a a' with h | h | h
  · have h1 : (a + 1) * R ≤ a' * R := Nat.mul_le_mul_right R h
    have h2 : (a + 1) * R = a * R + R := Nat.succ_mul a R
    rw [natCmp_of_lt (by omega), natCmp_of_lt h, then_lt]
  · subst h
    rw [natCmp_self, then_eq]
    rcases Nat.lt_trichotomy b b' with h2 | h2 | h2
    · rw [natCmp_of_lt (by omega), natCmp_of_lt h2]
    · subst h2
      rw [natCmp_self, natCmp_self]
    · rw [natCmp_of_gt (by omega), natCmp_of_gt h2]
  · have h1 : (a' + 1) * R ≤ a * R := Nat.mul_le_mul_right R h
    have h2 : (a' + 1) * R = a' * R + R := Nat.succ_mul a' R
    rw [natCmp_of_gt (by omega), natCmp_of_gt h, then_gt]

theorem strCmp_self : ∀ xs : List Nat, strCmp xs xs = Ordering.eq
  | [] => rfl
  | a :: as => by
    simp only [strCmp, strCmp_self as, if_neg (by omega : ¬ a < a)]

theorem strCmp_cons (c : Nat) (xs ys : List Nat) :
    strCmp (c :: xs) (c :: ys) = strCmp xs ys := by
  simp only [strCmp, if_neg (by omega : ¬ c < c)]

theorem strCmp_append : ∀ {xs ys : List Nat}, xs.length = ys.length →
    ∀ (s t : List Nat),
      strCmp (xs ++ s) (ys ++ t) = (strCmp xs ys).then (strCmp s t)
  | [], [], _, s, t => by
    simp only [List.nil_append, strCmp, then_eq]
  | [], _ :: _, h, _, _ => by simp at h
  | _ :: _, [], h, _, _ => by simp at h
  | a :: as, b :: bs, h, s, t => by
    simp only [List.cons_append, strCmp]
    by_cases h1 : a < b
    · rw [if_pos h1, if_pos h1, then_lt]
    · rw [if_neg h1, if_neg h1]
      by_cases h2 : b < a
      · rw [if_pos h2, if_pos h2, then_gt]
      · rw [if_neg h2, if_neg h2]
        exact strCmp_append (by simpa using h) s t

theorem padDigits_length : ∀ w n : Nat, (padDigits w n).length = w
  | 0, _ => rfl
  | w + 1, n => by
    simp only [padDigits, List.length_cons, padDigits_length w]

theorem strCmp_padDigits : ∀ (w n m : Nat), n < 10 ^ w → m < 10 ^ w →
    strCmp (padDigits w n) (padDigits w m) = natCmp n m
  | 0, n, m, hn, hm => by
    have hn0 : n = 0 := by simpa using hn
    have hm0 : m = 0 := by simpa using hm
    subst hn0; subst hm0
    simp only [padDigits, strCmp, natCmp_self]
  | w + 1, n, m, hn, hm => by
    have hpow : 0 < 10 ^ w := Nat.pow_pos (by omega)
    simp only [padDigits, strCmp]
    rcases Nat.lt_trichotomy (n / 10 ^ w) (m / 10 ^ w) with h | h | h
    · rw [if_pos (by omega)]
      rw [natCmp_of_lt (Nat.lt_of_div_lt_div h)]
    · rw [if_neg (by omega), if_neg (by omega)]
      rw [strCmp_padDigits w _ _ (Nat.mod_lt n hpow) (Nat.mod_lt m hpow)]
      have e1 := Nat.div_add_mod n (10 ^ w)
      have e2 := Nat.div_add_mod m (10 ^ w)
      have e3 : 10 ^ w * (n / 10 ^ w) = 10 ^ w * (m / 10 ^ w) := by rw [h]
      rcases Nat.lt_trichotomy (n % 10 ^ w) (m % 10 ^ w) with h2 | h2 | h2
      · rw [natCmp_of_lt h2, natCmp_of_lt (by omega)]
      · have hnm : n = m := by omega
        rw [h2, hnm, natCmp_self, natCmp_self]
      · rw [natCmp_of_gt h2, natCmp_of_gt (by omega)]
    · rw [if_neg (by omega), if_pos (by omega)]
      rw [natCmp_of_gt (Nat.lt_of_div_lt_div h)]

theorem strCmp_lt_head {x y : Nat} (h : x < y) (xs ys : List Nat) :
    strCmp (x :: xs) (y :: ys) = Ordering.lt := by
  simp only [strCmp]
  rw [if_pos h]

theorem strCmp_gt_head {x y : Nat} (h : y < x) (xs ys : List Nat) :
    strCmp (x :: xs) (y :: ys) = Ordering.gt := by
  simp only [strCmp]
  rw [if_neg (by omega), if_pos h]

theorem strCmp_pad_append {w n m : Nat} (hn : n < 10 ^ w) (hm : m < 10 ^ w)
    (s t : List Nat) :
    strCmp (padDigits w n ++ s) (padDigits w m ++ t) =
      (natCmp n m).then (strCmp s t) := by
  rw [strCmp_append (by rw [padDigits_length, padDigits_length]),
    strCmp_padDigits w n m hn hm]

theorem strCmp_sep_pad (c : Nat) {w n m : Nat} (hn : n < 10 ^ w)
    (hm : m < 10 ^ w) (s t : List Nat) :
    strCmp ((c :: padDigits w n) ++ s) ((c :: padDigits w m) ++ t) =
      (natCmp n m).then (strCmp s t) := by
  rw [strCmp_append (by simp [padDigits_length]), strCmp_cons,
    strCmp_padDigits w n m hn hm]

theorem strCmp_usecTail {u v : Nat} (hu : u < 10 ^ 6) (hv : v < 10 ^ 6) :
    strCmp ((if u = 0 then [] else 46 :: padDigits 6 u) ++ [43, 48, 48, 58, 48, 48])
      ((if v = 0 then [] else 46 :: padDigits 6 v) ++ [43, 48, 48, 58, 48, 48]) =
      natCmp u v := by
  by_cases h1 : u = 0 <;> by_cases h2 : v = 0
  · subst h1; subst h2
    rw [if_pos rfl, strCmp_self, natCmp_self]
  · subst h1
    rw [if_pos rfl, if_neg h2, List.nil_append, List.cons_append]
    rw [strCmp_lt_head (show (43:Nat) < 46 by omega), natCmp_of_lt (by omega)]
  · subst h2
    rw [if_neg h1, if_pos rfl, List.nil_append, List.cons_append]
    rw [strCmp_gt_head (show (43:Nat) < 46 by omega), natCmp_of_gt (by omega)]
  · rw [if_neg h1, if_neg h2, List.cons_append, List.cons_append, strCmp_cons,
      strCmp_append (by rw [padDigits_length, padDigits_length]),
      strCmp_padDigits 6 _ _ hu hv, strCmp_self, then_right_eq]

theorem strCmp_isoChars {a b : DT} (ha : a.valid) (hb : b.valid) :
    strCmp a.isoChars b.isoChars = DT.cmp a b := by
  obtain ⟨ha1, ha2, ha3, ha4, ha5, ha6, ha7⟩ := ha
  obtain ⟨hb1, hb2, hb3, hb4, hb5, hb6, hb7⟩ := hb
  have p2 : (100:Nat) = 10 ^ 2 := by norm_num
  have p4 : (10000:Nat) = 10 ^ 4 := by norm_num
  have p6 : (1000000:Nat) = 10 ^ 6 := by norm_num
  unfold DT.isoChars DT.cmp
  simp only [List.append_assoc]
  rw [strCmp_pad_append (p4 ▸ ha1) (p4 ▸ hb1),
    strCmp_sep_pad 45 (p2 ▸ ha2) (p2 ▸ hb2),
    strCmp_sep_pad 45 (p2 ▸ ha3) (p2 ▸ hb3),
    strCmp_sep_pad 84 (p2 ▸ ha4) (p2 ▸ hb4),
    strCmp_sep_pad 58 (p2 ▸ ha5) (p2 ▸ hb5),
    strCmp_sep_pad 58 (p2 ▸ ha6) (p2 ▸ hb6),
    strCmp_usecTail (p6 ▸ ha7) (p6 ▸ hb7)]

theorem DT.cmp_eq_key {a b : DT} (ha : a.valid) (hb : b.valid) :
    DT.cmp a b = natCmp a.toKey b.toKey := by
  obtain ⟨ha1, ha2, ha3, ha4, ha5, ha6, ha7⟩ := ha
  obtain ⟨hb1, hb2, hb3, hb4, hb5, hb6, hb7⟩ := hb
  unfold DT.toKey DT.cmp
  rw [natCmp_mul_add _ _ ha7 hb7, natCmp_mul_add _ _ ha6 hb6,
    natCmp_mul_add _ _ ha5 hb5, natCmp_mul_add _ _ ha4 hb4,
    natCmp_mul_add _ _ ha3 hb3, natCmp_mul_add _ _ ha2 hb2]
  simp only [then_assoc]

/-- For valid datetimes, Python string order on the isoformat renderings
agrees with chronological order. -/
theorem strLe_isoChars {a b : DT} (ha : a.valid) (hb : b.valid) :
    strLe a.isoChars b.isoChars = true ↔ a.toKey ≤ b.toKey := by
  unfold strLe
  rw [strCmp_isoChars ha hb, DT.cmp_eq_key ha hb]
  rcases Nat.lt_trichotomy a.toKey b.toKey with h | h | h
  · rw [natCmp_of_lt h]
    simp [Nat.le_of_lt h]
  · rw [h, natCmp_self]
    simp
  · rw [natCmp_of_gt h]
    simp
    omega

/-- For valid datetimes, Python `datetime <` agrees with chronological
order. -/
theorem DT.ltb_iff {a b : DT} (ha : a.valid) (hb : b.valid) :
    DT.ltb a b = true ↔ a.toKey < b.toKey := by
  unfold DT.ltb
  rw [DT.cmp_eq_key ha hb]
  rcases Nat.lt_trichotomy a.toKey b.toKey with h | h | h
  · rw [natCmp_of_lt h]
    simp [h]
  · rw [h, natCmp_self]
    simp
  · rw [natCmp_of_gt h]
    simp
    omega

theorem strCmp_swap : ∀ xs ys : List Nat, strCmp ys xs = (strCmp xs ys).swap
  | [], [] => rfl
  | [], _ :: _ => rfl
  | _ :: _, [] => rfl
  | a :: as, b :: bs => by
    simp only [strCmp]
    rcases Nat.lt_trichotomy a b with h | h | h
    · rw [if_neg (by omega : ¬ b < a), if_pos h, if_pos h]
      rfl
    · subst h
      rw [if_neg (by omega : ¬ a < a), if_neg (by omega : ¬ a < a),
        if_neg (by omega : ¬ a < a), if_neg (by omega : ¬ a < a)]
      exact strCmp_swap as bs
    · rw [if_pos h, if_neg (by omega : ¬ a < b), if_pos h]
      rfl

theorem strCmp_trans_aux : ∀ (x y z : List Nat),
    strCmp x y ≠ Ordering.gt → strCmp y z ≠ Ordering.gt →
      strCmp x z ≠ Ordering.gt
  | [], _, z, _, _ => by cases z <;> simp [strCmp]
  | _ :: _, [], _, h1, _ => by simp [strCmp] at h1
  | _ :: _, _ :: _, [], _, h2 => by simp [strCmp] at h2
  | a :: as, b :: bs, c :: cs, h1, h2 => by
    simp only [strCmp] at h1 h2 ⊢
    rcases Nat.lt_trichotomy a b with hab | hab | hab
    · rcases Nat.lt_trichotomy b c with hbc | hbc | hbc
      · rw [if_pos (by omega : a < c)]
        simp
      · subst hbc
        rw [if_pos hab]
        simp
      · rw [if_neg (by omega), if_pos hbc] at h2
        exact absurd rfl h2
    · subst hab
      rcases Nat.lt_trichotomy a c with hac | hac | hac
      · rw [if_pos hac]
        simp
      · subst hac
        rw [if_neg (by omega : ¬ a < a), if_neg (by omega : ¬ a < a)] at h1 h2 ⊢
        exact strCmp_trans_aux as bs cs h1 h2
      · rw [if_neg (by omega), if_pos hac] at h2
        exact absurd rfl h2
    · rw [if_neg (by omega), if_pos hab] at h1
      exact absurd rfl h1

theorem strLe_trans {x y z : List Nat} (h1 : strLe x y = true)
    (h2 : strLe y z = true) : strLe x z = true := by
  unfold strLe at h1 h2 ⊢
  have g1 : strCmp x y ≠ Ordering.gt := by
    intro h
    rw [h] at h1
    simp at h1
  have g2 : strCmp y z ≠ Ordering.gt := by
    intro h
    rw [h] at h2
    simp at h2
  have g3 := strCmp_trans_aux x y z g1 g2
  rcases h : strCmp x z with _ | _ | _
  · rfl
  · rfl
  · exact absurd h g3

theorem strLe_total (x y : List Nat) : strLe x y = true ∨ strLe y x = true := by
  unfold strLe
  rw [strCmp_swap x y]
  cases strCmp x y <;> simp [Ordering.swap]

instance : IsTotal Normalized normLe :=
  ⟨fun a b => strLe_total a.date.isoChars b.date.isoChars⟩

instance : IsTrans Normalized normLe :=
  ⟨fun _ _ _ h1 h2 => strLe_trans h1 h2⟩

/-! ## Structural facts about the per-channel step -/

theorem processMsg_fields {env : Env} {cid : Int} {info : ChannelInfo}
    {batch : List RawMsg} {m : RawMsg} {n : Normalized}
    (h : processMsg env cid info batch m = Except.ok n) :
    n.channelId = cid ∧ n.id = m.id ∧ n.date = m.date := by
  unfold processMsg at h
  cases hd : downloadMedia env m with
  | error e => rw [hd] at h; cases h
  | ok mp =>
    rw [hd] at h
    injection h with h
    subst h
    exact ⟨rfl, rfl, rfl⟩

theorem processMsgs_shape (env : Env) (cid : Int) (info : ChannelInfo)
    (batch : List RawMsg) :
    ∀ (kept : List RawMsg) (msgs : List Normalized),
      processMsgs env cid info batch kept = Except.ok msgs →
      msgs.map (fun n => (n.channelId, n.id, n.date)) =
        kept.map (fun m => (cid, m.id, m.date)) := by
  intro kept
  induction kept with
  | nil =>
    intro msgs h
    simp only [processMsgs] at h
    injection h with h
    subst h
    rfl
  | cons m rest ih =>
    intro msgs h
    simp only [processMsgs] at h
    cases hm : processMsg env cid info batch m with
    | error e => rw [hm] at h; cases h
    | ok n =>
      rw [hm] at h
      cases hr : processMsgs env cid info batch rest with
      | error e => rw [hr] at h; cases h
      | ok ns =>
        rw [hr] at h
        injection h with h
        subst h
        obtain ⟨h1, h2, h3⟩ := processMsg_fields hm
        simp only [List.map_cons, h1, h2, h3, ih ns hr]

theorem processChannel_ok {env : Env} {limit fallbackHours : Nat}
    {tracking : Tracking} {username : String} {msgs : List Normalized}
    {tr' : Tracking}
    (h : processChannel env limit fallbackHours tracking username =
      Except.ok (msgs, tr')) :
    ∃ entity channelInfo history,
      env.getEntity username = Except.ok entity ∧
      env.getChannelInfo username = Except.ok channelInfo ∧
      env.source entity.id = Except.ok history ∧
      processMsgs env entity.id channelInfo
        (fetchedFor limit tracking entity.id history)
        (keptFor env limit fallbackHours tracking entity.id history) =
        Except.ok msgs ∧
      tr' = updateTracking tracking entity.id
        (useIdTracking tracking entity.id) msgs := by
  unfold processChannel at h
  cases he : env.getEntity username with
  | error e => simp only [he] at h; cases h
  | ok entity =>
    simp only [he] at h
    cases hi : env.getChannelInfo username with
    | error e => simp only [hi] at h; cases h
    | ok channelInfo =>
      simp only [hi] at h
      cases hs : env.source entity.id with
      | error e => simp only [hs] at h; cases h
      | ok history =>
        simp only [hs] at h
        cases hp : processMsgs env entity.id channelInfo
            (fetchedFor limit tracking entity.id history)
            (keptFor env limit fallbackHours tracking entity.id history) with
        | error e => simp only [hp] at h; cases h
        | ok ms =>
          simp only [hp, Except.ok.injEq, Prod.mk.injEq] at h
          obtain ⟨h1, h2⟩ := h
          exact ⟨entity, channelInfo, history, rfl, rfl, hs,
            h1 ▸ hp, h1 ▸ h2.symm⟩

theorem useIdTracking_eq_true {tr : Tracking} {cid : Int} :
    useIdTracking tr cid = true ↔ ∃ w, tr cid = some w ∧ 0 < w := by
  unfold useIdTracking
  cases h : tr cid <;> simp

theorem lastId_of_some {tr : Tracking} {cid : Int} {w : Int}
    (h : tr cid = some w) : lastId tr cid = w := by
  unfold lastId
  rw [h]

theorem setTrack_at (tr : Tracking) (cid : Int) (v : Int) :
    setTrack tr cid v cid = some v := by
  unfold setTrack
  rw [if_pos rfl]

theorem setTrack_other (tr : Tracking) (cid : Int) (v : Int) {k : Int}
    (h : k ≠ cid) : setTrack tr cid v k = tr k := by
  unfold setTrack
  rw [if_neg h]

theorem updateTracking_nil (tr : Tracking) (cid : Int) (useId : Bool) :
    updateTracking tr cid useId [] = tr := by
  unfold updateTracking
  rfl

theorem updateTracking_at {msgs : List Normalized} (tr : Tracking) (cid : Int)
    (useId : Bool) (h : msgs ≠ []) :
    updateTracking tr cid useId msgs cid =
      some (if useId then max (newestId msgs) (lastId tr cid)
        else newestId msgs) := by
  unfold updateTracking
  rw [if_neg (by simpa [List.isEmpty_iff] using h)]
  cases useId with
  | true => rw [if_pos rfl, if_pos rfl, setTrack_at]
  | false => rw [if_neg (by simp), if_neg (by simp), setTrack_at]

theorem updateTracking_other {msgs : List Normalized} (tr : Tracking)
    (cid : Int) (useId : Bool) {k : Int} (h : k ≠ cid) :
    updateTracking tr cid useId msgs k = tr k := by
  unfold updateTracking
  by_cases he : msgs.isEmpty
  · rw [if_pos he]
  · rw [if_neg he]
    cases useId with
    | true => rw [if_pos rfl, setTrack_other _ _ _ h]
    | false => rw [if_neg (by simp), setTrack_other _ _ _ h]

theorem getHistory_sublist (history : List RawMsg) (minId : Int) (limit : Nat) :
    (getHistory history minId limit).Sublist history := by
  unfold getHistory
  exact (List.take_sublist _ _).trans (List.filter_sublist _)

theorem mem_getHistory {history : List RawMsg} {minId : Int} {limit : Nat}
    {m : RawMsg} (h : m ∈ getHistory history minId limit) :
    m ∈ history ∧ minId < m.id := by
  unfold getHistory at h
  have h1 := (List.take_sublist _ _).subset h
  rw [List.mem_filter] at h1
  exact ⟨h1.1, of_decide_eq_true h1.2⟩

theorem fetchedFor_sublist (limit : Nat) (tracking : Tracking) (cid : Int)
    (history : List RawMsg) :
    (fetchedFor limit tracking cid history).Sublist history := by
  unfold fetchedFor
  split <;> exact getHistory_sublist _ _ _

theorem keptFor_sublist (env : Env) (limit fallbackHours : Nat)
    (tracking : Tracking) (cid : Int) (history : List RawMsg) :
    (keptFor env limit fallbackHours tracking cid history).Sublist
      (fetchedFor limit tracking cid history) := by
  unfold keptFor
  split
  · exact List.Sublist.refl _
  · exact List.filter_sublist _

/-- Every message surviving the per-channel fetch and filter comes from the
channel history, has a positive id, and in cursor mode has id strictly
greater than `last_message_id + 1` — the `min_id` the code passes. -/
theorem mem_keptFor {env : Env} {limit fallbackHours : Nat}
    {tracking : Tracking} {cid : Int} {history : List RawMsg} {m : RawMsg}
    (hpos : ∀ x ∈ history, 0 < x.id)
    (h : m ∈ keptFor env limit fallbackHours tracking cid history) :
    m ∈ history ∧ 0 < m.id ∧
      (useIdTracking tracking cid = true → lastId tracking cid + 1 < m.id) := by
  have hf : m ∈ fetchedFor limit tracking cid history :=
    (keptFor_sublist env limit fallbackHours tracking cid history).subset h
  unfold fetchedFor at hf
  cases hu : useIdTracking tracking cid with
  | true =>
    rw [hu] at hf
    simp only [if_pos] at hf
    obtain ⟨hmem, hgt⟩ := mem_getHistory hf
    obtain ⟨w, hw, hwpos⟩ := useIdTracking_eq_true.mp hu
    refine ⟨hmem, ?_, fun _ => hgt⟩
    rw [lastId_of_some hw] at hgt
    omega
  | false =>
    rw [hu] at hf
    simp only [Bool.false_eq_true, if_false] at hf
    obtain ⟨hmem, _⟩ := mem_getHistory hf
    exact ⟨hmem, hpos m hmem, fun habs => by simp at habs⟩

theorem keptFor_ids_nodup {env : Env} {limit fallbackHours : Nat}
    {tracking : Tracking} {cid : Int} {history : List RawMsg}
    (hnd : (history.map (fun m => m.id)).Nodup) :
    ((keptFor env limit fallbackHours tracking cid history).map
      (fun m => m.id)).Nodup :=
  hnd.sublist (List.Sublist.map _
    ((keptFor_sublist env limit fallbackHours tracking cid history).trans
      (fetchedFor_sublist limit tracking cid history)))

/-! ## Facts about `newestId` -/

theorem foldl_max_ge_init : ∀ (l : List Normalized) (a : Int),
    a ≤ l.foldl (fun x m => max x m.id) a
  | [], _ => le_refl _
  | hd :: tl, a =>
    le_trans (le_max_left a hd.id) (foldl_max_ge_init tl (max a hd.id))

theorem foldl_max_ge_mem : ∀ {l : List Normalized} {m : Normalized} (a : Int),
    m ∈ l → m.id ≤ l.foldl (fun x m => max x m.id) a := by
  intro l
  induction l with
  | nil => intro m a h; cases h
  | cons hd tl ih =>
    intro m a h
    rcases List.mem_cons.mp h with h | h
    · subst h
      exact le_trans (le_max_right a m.id) (foldl_max_ge_init tl _)
    · exact ih _ h

theorem newestId_ge {msgs : List Normalized} {m : Normalized} (h : m ∈ msgs) :
    m.id ≤ newestId msgs := by
  cases msgs with
  | nil => cases h
  | cons hd tl =>
    unfold newestId
    rcases List.mem_cons.mp h with h | h
    · subst h
      exact foldl_max_ge_init tl _
    · exact foldl_max_ge_mem _ h

theorem foldl_max_shift : ∀ (l : List Normalized) (a b : Int),
    max (l.foldl (fun x m => max x m.id) a) b =
      l.foldl (fun x m => max x m.id) (max b a)
  | [], a, b => max_comm a b
  | hd :: tl, a, b => by
    simp only [List.foldl_cons]
    rw [foldl_max_shift tl (max a hd.id) b, max_assoc]

/-- `max(newest_id, W)` is the fold of `max` over the emitted ids started at
`W` — that is, `max(W, i₁, …, iₙ)`. -/
theorem max_newestId_foldl (msgs : List Normalized) (W : Int) (h : msgs ≠ []) :
    max (newestId msgs) W = msgs.foldl (fun a m => max a m.id) W := by
  cases msgs with
  | nil => exact absurd rfl h
  | cons hd tl =>
    unfold newestId
    simp only [List.foldl_cons]
    rw [foldl_max_shift tl hd.id W]

theorem newestId_pos {msgs : List Normalized} (h : msgs ≠ [])
    (hpos : ∀ m ∈ msgs, 0 < m.id) : 0 < newestId msgs := by
  cases msgs with
  | nil => exact absurd rfl h
  | cons hd tl =>
    exact lt_of_lt_of_le (hpos hd (List.mem_cons_self hd tl))
      (newestId_ge (List.mem_cons_self hd tl))

/-- Behavioural summary of one successful per-channel step: every emitted
record carries the channel's id, the emitted ids are distinct and positive,
every emitted id is covered by the updated tracking entry, other entries are
untouched, the channel's entry never decreases, and in cursor mode every
emitted id is strictly above the prior watermark. -/
theorem processChannel_spec {env : Env} {limit fallbackHours : Nat}
    {tracking : Tracking} {username : String} {msgs : List Normalized}
    {tr' : Tracking} {entity : Entity}
    (hent : env.getEntity username = Except.ok entity)
    (h : processChannel env limit fallbackHours tracking username =
      Except.ok (msgs, tr'))
    (hsrc : ∀ history, env.source entity.id = Except.ok history →
      (history.map (fun m => m.id)).Nodup ∧ ∀ m ∈ history, 0 < m.id) :
    (∀ n ∈ msgs, n.channelId = entity.id) ∧
    (msgs.map (fun n => n.id)).Nodup ∧
    (∀ n ∈ msgs, 0 < n.id) ∧
    (∀ n ∈ msgs, ∃ w, tr' entity.id = some w ∧ n.id ≤ w) ∧
    (∀ k, k ≠ entity.id → tr' k = tracking k) ∧
    (∀ w, tracking entity.id = some w →
      ∃ w', tr' entity.id = some w' ∧ w ≤ w') ∧
    (∀ n ∈ msgs, ∀ w, tracking entity.id = some w → 0 < w → w < n.id) := by
  obtain ⟨entity', info, history, he', hi, hs, hp, htr⟩ := processChannel_ok h
  have hent2 : entity = entity' := by
    have h0 := hent.symm.trans he'
    injection h0
  subst hent2
  obtain ⟨hnd, hpos⟩ := hsrc history hs
  have hmap := processMsgs_shape env entity.id info
    (fetchedFor limit tracking entity.id history) _ _ hp
  have hcorr : ∀ n ∈ msgs,
      ∃ m ∈ keptFor env limit fallbackHours tracking entity.id history,
        n.channelId = entity.id ∧ n.id = m.id ∧ n.date = m.date := by
    intro n hn
    have h1 : (n.channelId, n.id, n.date) ∈
        (keptFor env limit fallbackHours tracking entity.id history).map
          (fun m => (entity.id, m.id, m.date)) := by
      rw [← hmap]
      exact List.mem_map_of_mem _ hn
    obtain ⟨m, hm, heq⟩ := List.mem_map.mp h1
    simp only [Prod.mk.injEq] at heq
    exact ⟨m, hm, heq.1.symm, heq.2.1.symm, heq.2.2.symm⟩
  have hids : msgs.map (fun n => n.id) =
      (keptFor env limit fallbackHours tracking entity.id history).map
        (fun m => m.id) := by
    have h2 := congrArg (List.map (fun p : Int × Int × DT => p.2.1)) hmap
    simpa [List.map_map, Function.comp] using h2
  have hnd2 : (msgs.map (fun n => n.id)).Nodup := by
    rw [hids]
    exact keptFor_ids_nodup hnd
  have hposmsgs : ∀ n ∈ msgs, 0 < n.id := by
    intro n hn
    obtain ⟨m, hm, _, h2, _⟩ := hcorr n hn
    obtain ⟨_, hp2, _⟩ := mem_keptFor hpos hm
    omega
  refine ⟨?_, hnd2, hposmsgs, ?_, ?_, ?_, ?_⟩
  · intro n hn
    obtain ⟨m, hm, h1, _, _⟩ := hcorr n hn
    exact h1
  · intro n hn
    have hne : msgs ≠ [] := by
      intro h0
      subst h0
      cases hn
    rw [htr, updateTracking_at _ _ _ hne]
    refine ⟨_, rfl, ?_⟩
    have hge := newestId_ge hn
    split
    · exact le_trans hge (le_max_left _ _)
    · exact hge
  · intro k hk
    rw [htr, updateTracking_other _ _ _ hk]
  · intro w hw
    by_cases hne : msgs = []
    · subst hne
      rw [htr, updateTracking_nil]
      exact ⟨w, hw, le_refl w⟩
    · rw [htr, updateTracking_at _ _ _ hne]
      refine ⟨_, rfl, ?_⟩
      cases hu : useIdTracking tracking entity.id with
      | true =>
        rw [if_pos rfl]
        rw [lastId_of_some hw]
        exact le_max_right _ _
      | false =>
        rw [if_neg (by simp)]
        have hw0 : ¬ 0 < w := by
          intro hpos0
          have hcontra : useIdTracking tracking entity.id = true :=
            useIdTracking_eq_true.mpr ⟨w, hw, hpos0⟩
          rw [hu] at hcontra
          cases hcontra
        have hnewpos : 0 < newestId msgs := newestId_pos hne hposmsgs
        omega
  · intro n hn w hw hwpos
    obtain ⟨m, hm, _, h2, _⟩ := hcorr n hn
    have hu : useIdTracking tracking entity.id = true :=
      useIdTracking_eq_true.mpr ⟨w, hw, hwpos⟩
    obtain ⟨_, _, h3⟩ := mem_keptFor hpos hm
    have h4 := h3 hu
    rw [lastId_of_some hw] at h4
    omega

/-- Two normalized records describe distinct (channel id, message id) pairs. -/
def distinctPair (a b : Normalized) : Prop :=
  ¬ (a.channelId = b.channelId ∧ a.id = b.id)

/-- The loop invariant of the channel loop: the accumulated corpus has
pairwise distinct (channel id, message id) pairs, every emitted id is
positive and covered by the final tracking entry of its channel, tracking
entries never decrease across the loop, and every emitted id is strictly
above the watermark its channel had when the loop started. -/
theorem collectChannels_spec (env : Env) (limit fallbackHours : Nat)
    (hsrc : ∀ cid history, env.source cid = Except.ok history →
      (history.map (fun m => m.id)).Nodup ∧ ∀ m ∈ history, 0 < m.id) :
    ∀ (channels : List String) (tr : Tracking),
      (collectChannels env limit fallbackHours channels tr).1.Pairwise
        distinctPair ∧
      (∀ n ∈ (collectChannels env limit fallbackHours channels tr).1,
        0 < n.id ∧ ∃ w,
          (collectChannels env limit fallbackHours channels tr).2 n.channelId =
            some w ∧ n.id ≤ w) ∧
      (∀ cid w, tr cid = some w → ∃ w',
        (collectChannels env limit fallbackHours channels tr).2 cid = some w' ∧
          w ≤ w') ∧
      (∀ n ∈ (collectChannels env limit fallbackHours channels tr).1,
        ∀ w, tr n.channelId = some w → 0 < w → w < n.id) := by
  intro channels
  induction channels with
  | nil =>
    intro tr
    exact ⟨List.Pairwise.nil, fun n hn => absurd hn (List.not_mem_nil n),
      fun cid w hw => ⟨w, hw, le_refl w⟩,
      fun n hn => absurd hn (List.not_mem_nil n)⟩
  | cons u rest ih =>
    intro tr
    cases hpc : processChannel env limit fallbackHours tr u with
    | error e =>
      simp only [collectChannels, hpc]
      exact ih tr
    | ok p =>
      obtain ⟨msgs, tr1⟩ := p
      obtain ⟨entity, info, history, hent, hinfo, hsi, hpm, htr⟩ :=
        processChannel_ok hpc
      obtain ⟨hcid, hndids, hposids, hcover, hother, hmono, hnovel⟩ :=
        processChannel_spec hent hpc (fun hist hh => hsrc entity.id hist hh)
      obtain ⟨P1r, P2r, P3r, P4r⟩ := ih tr1
      simp only [collectChannels, hpc]
      refine ⟨?_, ?_, ?_, ?_⟩
      · rw [List.pairwise_append]
        refine ⟨?_, P1r, ?_⟩
        · have h1 : msgs.Pairwise (fun a b => a.id ≠ b.id) :=
            List.pairwise_map.mp hndids
          exact h1.imp (fun hne hc => hne hc.2)
        · intro a ha b hb
          intro hcon
          obtain ⟨hch, hid⟩ := hcon
          have hac : a.channelId = entity.id := hcid a ha
          obtain ⟨w1, hw1, hle⟩ := hcover a ha
          have hw1pos : 0 < w1 := lt_of_lt_of_le (hposids a ha) hle
          have hbch : b.channelId = entity.id := by rw [← hch]; exact hac
          have hlt := P4r b hb w1 (by rw [hbch]; exact hw1) hw1pos
          omega
      · intro n hn
        rcases List.mem_append.mp hn with hn | hn
        · refine ⟨hposids n hn, ?_⟩
          obtain ⟨w1, hw1, hle⟩ := hcover n hn
          obtain ⟨w', hw', hle'⟩ := P3r entity.id w1 hw1
          rw [hcid n hn]
          exact ⟨w', hw', by omega⟩
        · exact P2r n hn
      · intro cid0 w hw
        by_cases hc : cid0 = entity.id
        · subst hc
          obtain ⟨w1, hw1, hle1⟩ := hmono w hw
          obtain ⟨w', hw', hle'⟩ := P3r entity.id w1 hw1
          exact ⟨w', hw', by omega⟩
        · exact P3r cid0 w ((hother cid0 hc).trans hw)
      · intro n hn w hw hwpos
        rcases List.mem_append.mp hn with hn | hn
        · exact hnovel n hn w (hcid n hn ▸ hw) hwpos
        · by_cases hc : n.channelId = entity.id
          · obtain ⟨w1, hw1, hle1⟩ := hmono w (hc ▸ hw)
            have hlt := P4r n hn w1 (by rw [hc]; exact hw1) (by omega)
            omega
          · exact P4r n hn w ((hother n.channelId hc).trans hw) hwpos

/-- Every record in the accumulated corpus carries the date of some message
of a successfully fetched channel history. -/
theorem collectChannels_dates (env : Env) (limit fallbackHours : Nat) :
    ∀ (channels : List String) (tr : Tracking),
      ∀ n ∈ (collectChannels env limit fallbackHours channels tr).1,
        ∃ cid history m, env.source cid = Except.ok history ∧ m ∈ history ∧
          n.date = m.date := by
  intro channels
  induction channels with
  | nil =>
    intro tr n hn
    cases hn
  | cons u rest ih =>
    intro tr n hn
    cases hpc : processChannel env limit fallbackHours tr u with
    | error e =>
      simp only [collectChannels, hpc] at hn
      exact ih tr n hn
    | ok p =>
      obtain ⟨msgs, tr1⟩ := p
      simp only [collectChannels, hpc] at hn
      rcases List.mem_append.mp hn with hn | hn
      · obtain ⟨entity, info, history, hent, hinfo, hsi, hpm, htr⟩ :=
          processChannel_ok hpc
        have hmap := processMsgs_shape env entity.id info
          (fetchedFor limit tr entity.id history) _ _ hpm
        have h1 : (n.channelId, n.id, n.date) ∈
            (keptFor env limit fallbackHours tr entity.id history).map
              (fun m => (entity.id, m.id, m.date)) := by
          rw [← hmap]
          exact List.mem_map_of_mem _ hn
        obtain ⟨m, hm, heq⟩ := List.mem_map.mp h1
        simp only [Prod.mk.injEq] at heq
        have hmh : m ∈ history :=
          ((keptFor_sublist env limit fallbackHours tr entity.id
              history).trans
            (fetchedFor_sublist limit tr entity.id history)).subset hm
        exact ⟨entity.id, history, m, hsi, hmh, heq.2.2.symm⟩
      · exact ih tr1 n hn

/-! ## The claims -/

/-- **C1** For every channel that enters cursor mode with prior watermark
`W`, if its fetch-and-process step emits the records `msgs` with ids
`i₁ … iₙ`, the channel's tracking entry right after the step — the value the
end-of-run save persists — is `max(W, i₁, …, iₙ)` (stated as the fold of
`max` over the emitted ids starting at `W`), and when no record is emitted
the whole mapping is left untouched (the entry is neither rewritten nor
removed); other channels' entries are never touched by this step. -/
theorem c1_cursor_watermark (env : Env) (limit fallbackHours : Nat)
    (tracking : Tracking) (username : String) (entity : Entity) (W : Int)
    (msgs : List Normalized) (tr' : Tracking)
    (hent : env.getEntity username = Except.ok entity)
    (hW : tracking entity.id = some W) (hWpos : 0 < W)
    (hrun : processChannel env limit fallbackHours tracking username =
      Except.ok (msgs, tr')) :
    (msgs = [] → tr' = tracking) ∧
    (msgs ≠ [] →
      tr' entity.id = some (msgs.foldl (fun a m => max a m.id) W) ∧
      ∀ k, k ≠ entity.id → tr' k = tracking k) := by
  obtain ⟨entity', info, history, hent', hinfo, hsi, hpm, htr⟩ :=
    processChannel_ok hrun
  have he2 : entity = entity' := by
    have h0 := hent.symm.trans hent'
    injection h0
  subst he2
  have huse : useIdTracking tracking entity.id = true :=
    useIdTracking_eq_true.mpr ⟨W, hW, hWpos⟩
  constructor
  · intro h0
    subst h0
    rw [htr, updateTracking_nil]
  · intro hne
    constructor
    · rw [htr, updateTracking_at _ _ _ hne, huse, if_pos rfl,
        lastId_of_some hW, max_newestId_foldl msgs W hne]
    · intro k hk
      rw [htr, updateTracking_other _ _ _ hk]

/-- **C2** For every channel list (duplicates included) and every starting
watermark mapping, provided each channel history carries distinct positive
ids, the corpus of one run contains at most one record per distinct
(channel id, message id) pair, and no record of a channel whose starting
watermark was positive has id at or below that starting watermark. -/
theorem c2_no_duplicates (env : Env) (channels : List String)
    (limit fallbackHours : Nat) (tr0 : Tracking)
    (hsrc : ∀ cid history, env.source cid = Except.ok history →
      (history.map (fun m => m.id)).Nodup ∧ ∀ m ∈ history, 0 < m.id) :
    (runCorpusFrom env channels limit fallbackHours tr0).Pairwise
      distinctPair ∧
    (∀ n ∈ runCorpusFrom env channels limit fallbackHours tr0,
      ∀ w, tr0 n.channelId = some w → 0 < w → w < n.id) := by
  obtain ⟨P1, _, _, P4⟩ :=
    collectChannels_spec env limit fallbackHours hsrc channels tr0
  have hperm : List.Perm (runCorpusFrom env channels limit fallbackHours tr0)
      (collectChannels env limit fallbackHours channels tr0).1 :=
    List.perm_insertionSort _ _
  constructor
  · have hsym : ∀ {x y : Normalized}, distinctPair x y → distinctPair y x :=
      fun h hc => h ⟨hc.1.symm, hc.2.symm⟩
    exact (hperm.pairwise_iff hsym).mpr P1
  · intro n hn
    exact P4 n (hperm.mem_iff.mp hn)

/-- **C7** The corpus returned by a run is sorted non-decreasing by the
chronological instants of the message timestamps (not merely by their string
renderings), for every interleaving of per-channel results, provided every
source timestamp is a well-formed datetime. -/
theorem c7_corpus_sorted (env : Env) (channels : List String)
    (limit fallbackHours : Nat) (tr0 : Tracking)
    (hvalid : ∀ cid history m, env.source cid = Except.ok history →
      m ∈ history → m.date.valid) :
    List.Sorted (fun a b : Normalized => a.date.toKey ≤ b.date.toKey)
      (runCorpusFrom env channels limit fallbackHours tr0) := by
  have hsorted : List.Sorted normLe
      (runCorpusFrom env channels limit fallbackHours tr0) :=
    List.sorted_insertionSort normLe _
  have hmemvalid : ∀ n ∈ runCorpusFrom env channels limit fallbackHours tr0,
      n.date.valid := by
    intro n hn
    have hn2 : n ∈ (collectChannels env limit fallbackHours channels tr0).1 :=
      (List.perm_insertionSort normLe _).mem_iff.mp hn
    obtain ⟨cid, history, m, hsi, hmh, hdate⟩ :=
      collectChannels_dates env limit fallbackHours channels tr0 n hn2
    rw [hdate]
    exact hvalid cid history m hsi hmh
  exact List.Pairwise.imp_of_mem
    (fun ha hb hr =>
      (strLe_isoChars (hmemvalid _ ha) (hmemvalid _ hb)).mp hr)
    hsorted

/-- **C8** A channel whose resolution or fetch raises contributes zero
messages to the corpus, leaves the whole tracking mapping exactly as it was,
and has no effect on the processing of the remaining channels: the loop over
`u :: rest` equals the loop over `rest` alone. -/
theorem c8_failed_channel_skipped (env : Env) (limit fallbackHours : Nat)
    (tr : Tracking) (u : String) (rest : List String) (e : String)
    (hfail : processChannel env limit fallbackHours tr u = Except.error e) :
    collectChannels env limit fallbackHours (u :: rest) tr =
      collectChannels env limit fallbackHours rest tr := by
  simp only [collectChannels, hfail]

/-- **C9** In fallback mode, the emitted records are exactly the fetched
messages at or after the cutoff instant `now − fallback_hours`: every
emitted record's timestamp is at or after the cutoff, every fetched message
at or after the cutoff yields an emitted record, and every fetched message
strictly older than the cutoff yields none.  (Timestamps are UTC wall-clock
tuples; a timezone-naive timestamp is the same tuple reinterpreted as UTC,
which is exactly what the code's `replace(tzinfo=timezone.utc)` does.) -/
theorem c9_fallback_filter (env : Env) (limit fallbackHours : Nat)
    (tracking : Tracking) (username : String) (entity : Entity)
    (history : List RawMsg) (msgs : List Normalized) (tr' : Tracking)
    (hent : env.getEntity username = Except.ok entity)
    (hsrc : env.source entity.id = Except.ok history)
    (hfb : useIdTracking tracking entity.id = false)
    (hrun : processChannel env limit fallbackHours tracking username =
      Except.ok (msgs, tr'))
    (hvalid : ∀ m ∈ history, m.date.valid)
    (hsince : (env.sinceDate fallbackHours).valid)
    (hnd : (history.map (fun m => m.id)).Nodup) :
    (∀ n ∈ msgs, (env.sinceDate fallbackHours).toKey ≤ n.date.toKey) ∧
    (∀ m ∈ fetchedFor limit tracking entity.id history,
      (env.sinceDate fallbackHours).toKey ≤ m.date.toKey →
        ∃ n ∈ msgs, n.id = m.id ∧ n.date = m.date) ∧
    (∀ m ∈ fetchedFor limit tracking entity.id history,
      m.date.toKey < (env.sinceDate fallbackHours).toKey →
        ∀ n ∈ msgs, n.id ≠ m.id) := by
  obtain ⟨entity', info, history', hent', hinfo, hsi, hpm, htr⟩ :=
    processChannel_ok hrun
  have he2 : entity = entity' := by
    have h0 := hent.symm.trans hent'
    injection h0
  subst he2
  have hh2 : history = history' := by
    have h0 := hsrc.symm.trans hsi
    injection h0
  subst hh2
  have hmap := processMsgs_shape env entity.id info
    (fetchedFor limit tracking entity.id history) _ _ hpm
  have hkept : keptFor env limit fallbackHours tracking entity.id history =
      (fetchedFor limit tracking entity.id history).filter
        (fun m => ! DT.ltb m.date (env.sinceDate fallbackHours)) := by
    unfold keptFor
    rw [hfb]
    simp only [Bool.false_eq_true, if_false]
  have hfv : ∀ m ∈ fetchedFor limit tracking entity.id history,
      m.date.valid := fun m hm =>
    hvalid m ((fetchedFor_sublist limit tracking entity.id history).subset hm)
  have hcorr : ∀ n ∈ msgs,
      ∃ m ∈ keptFor env limit fallbackHours tracking entity.id history,
        n.channelId = entity.id ∧ n.id = m.id ∧ n.date = m.date := by
    intro n hn
    have h1 : (n.channelId, n.id, n.date) ∈
        (keptFor env limit fallbackHours tracking entity.id history).map
          (fun m => (entity.id, m.id, m.date)) := by
      rw [← hmap]
      exact List.mem_map_of_mem _ hn
    obtain ⟨m, hm, heq⟩ := List.mem_map.mp h1
    simp only [Prod.mk.injEq] at heq
    exact ⟨m, hm, heq.1.symm, heq.2.1.symm, heq.2.2.symm⟩
  refine ⟨?_, ?_, ?_⟩
  · intro n hn
    obtain ⟨m, hm, _, _, hdate⟩ := hcorr n hn
    rw [hkept, List.mem_filter] at hm
    obtain ⟨hmf, hflt⟩ := hm
    have hltb : DT.ltb m.date (env.sinceDate fallbackHours) = false := by
      cases hcase : DT.ltb m.date (env.sinceDate fallbackHours) with
      | false => rfl
      | true => rw [hcase] at hflt; cases hflt
    have hnot : ¬ (m.date.toKey < (env.sinceDate fallbackHours).toKey) := by
      intro hlt
      have h2 := (DT.ltb_iff (hfv m hmf) hsince).mpr hlt
      rw [h2] at hltb
      cases hltb
    rw [hdate]
    omega
  · intro m hm hge
    have hltb : DT.ltb m.date (env.sinceDate fallbackHours) = false := by
      cases hcase : DT.ltb m.date (env.sinceDate fallbackHours) with
      | false => rfl
      | true =>
        have h2 := (DT.ltb_iff (hfv m hm) hsince).mp hcase
        omega
    have hkm : m ∈ keptFor env limit fallbackHours tracking entity.id
        history := by
      rw [hkept, List.mem_filter]
      exact ⟨hm, by rw [hltb]; rfl⟩
    have h2 : (entity.id, m.id, m.date) ∈
        (keptFor env limit fallbackHours tracking entity.id history).map
          (fun m => (entity.id, m.id, m.date)) :=
      List.mem_map_of_mem _ hkm
    rw [← hmap] at h2
    obtain ⟨n, hn, heq⟩ := List.mem_map.mp h2
    simp only [Prod.mk.injEq] at heq
    exact ⟨n, hn, heq.2.1, heq.2.2⟩
  · intro m hm hlt n hn heqid
    obtain ⟨m', hm', _, hid, hdate⟩ := hcorr n hn
    have hm'f : m' ∈ fetchedFor limit tracking entity.id history := by
      rw [hkept, List.mem_filter] at hm'
      exact hm'.1
    have hndf : ((fetchedFor limit tracking entity.id history).map
        (fun m => m.id)).Nodup :=
      hnd.sublist (List.Sublist.map _
        (fetchedFor_sublist limit tracking entity.id history))
    have hmm : m = m' := by
      have := List.inj_on_of_nodup_map hndf hm hm'f
      exact this (by rw [← heqid, hid])
    subst hmm
    rw [hkept, List.mem_filter] at hm'
    obtain ⟨_, hflt⟩ := hm'
    have h2 := (DT.ltb_iff (hfv m hm) hsince).mpr hlt
    rw [h2] at hflt
    cases hflt

/-- **C10** Loading the watermark mapping is a total function of the backing
file's state and never raises: a missing, unreadable or unparseable file
yields the empty mapping — so `use_id_tracking` is false for every channel
and every channel runs in fallback mode — and a well-formed file yields
exactly its stored mapping. -/
theorem c10_load_never_raises :
    loadLastMessageTracking FileState.absent = emptyTracking ∧
    loadLastMessageTracking FileState.unreadable = emptyTracking ∧
    loadLastMessageTracking FileState.malformed = emptyTracking ∧
    (∀ entries, loadLastMessageTracking (FileState.wellFormed entries) =
      toTracking entries) ∧
    (∀ fs cid, (fs = FileState.absent ∨ fs = FileState.unreadable ∨
        fs = FileState.malformed) →
      useIdTracking (loadLastMessageTracking fs) cid = false) := by
  refine ⟨rfl, rfl, rfl, fun entries => rfl, ?_⟩
  intro fs cid h
  rcases h with h | h | h <;> subst h <;> rfl

/-- **C4** counterexample: the save is not atomic.  With the old file
content `"{}"` and the new serialized mapping, the truncated state — the
empty file left behind by `open(tracking_file, "w")` before `json.dump` has
run — is reachable by an interruption and is neither the complete old
mapping nor the complete new one. -/
theorem c4_counterexample :
    ("" ∈ saveInterruptionContents "\x7b\x7d" "\x7b\n  \"1\": 2\n\x7d") ∧
    "" ≠ "\x7b\x7d" ∧ "" ≠ "\x7b\n  \"1\": 2\n\x7d" := by
  refine ⟨?_, ?_, ?_⟩
  · simp [saveInterruptionContents]
  · decide
  · decide

/-- **C4** amended: `_save_last_message_tracking` overwrites the backing
file in place — `open(tracking_file, "w")` truncates it, then `json.dump`
writes — so for every nonempty old content and nonempty new serialization
there is a reachable interruption state that is neither the old nor the new
file content; the write-to-temp-then-rename discipline the claim asserts is
absent. -/
theorem c4_save_truncates_in_place (oldContent newContent : String)
    (hold : oldContent ≠ "") (hnew : newContent ≠ "") :
    ∃ s ∈ saveInterruptionContents oldContent newContent,
      s ≠ oldContent ∧ s ≠ newContent :=
  ⟨"", by simp [saveInterruptionContents],
    fun h => hold h.symm, fun h => hnew h.symm⟩

/-- Witness for the amended C4 at concrete file contents. -/
theorem c4_save_truncates_in_place_witness :
    ∃ s ∈ saveInterruptionContents "\x7b\x7d" "\x7b\n  \"99\": 7\n\x7d",
      s ≠ "\x7b\x7d" ∧ s ≠ "\x7b\n  \"99\": 7\n\x7d" :=
  c4_save_truncates_in_place _ _ (by decide) (by decide)

/-- **C5** amended: when the final watermark write fails, the exception is
caught and logged inside `_save_last_message_tracking`, and
`get_new_messages_without_duplication` still returns the collected corpus —
the run reports success and the persistence failure is not surfaced to the
caller. -/
theorem c5_save_failure_swallowed (env : Env) (channels : List String)
    (limit fallbackHours : Nat) (e : String)
    (hfail : env.save (finalTrackingFrom env channels limit fallbackHours
        (loadLastMessageTracking env.trackingFile)) = Except.error e) :
    getNewMessagesWithoutDuplication env channels limit fallbackHours =
      Except.ok (runCorpusFrom env channels limit fallbackHours
        (loadLastMessageTracking env.trackingFile)) := rfl

/-! ## Concrete instances -/

/-- 2024-01-01T06:00:00+00:00 — before the fallback cutoff. -/
def dtOld : DT := ⟨2024, 1, 1, 6, 0, 0, 0⟩

/-- 2024-01-02T03:00:00+00:00. -/
def dtMid2 : DT := ⟨2024, 1, 2, 3, 0, 0, 0⟩

/-- 2024-01-02T06:00:00+00:00. -/
def dtMid : DT := ⟨2024, 1, 2, 6, 0, 0, 0⟩

/-- 2024-01-02T12:00:00+00:00. -/
def dtLate : DT := ⟨2024, 1, 2, 12, 0, 0, 0⟩

/-- The fallback cutoff instant 2024-01-02T00:00:00+00:00. -/
def dtSince : DT := ⟨2024, 1, 2, 0, 0, 0, 0⟩

/-- A plain source message. -/
def mkMsg (i : Int) (d : DT) (media : Option MediaPayload) : RawMsg :=
  { id := i, date := d, text := "t", media := media, replyTo := none,
    views := none, forwards := none }

/-- One accessible channel `acc` (entity id 1) whose history holds messages
8 (later) and 7 (earlier), newest first. -/
def envA : Env :=
  { getEntity := fun u =>
      if u = "acc" then Except.ok ⟨1⟩ else Except.error "unreachable"
    getChannelInfo := fun u =>
      if u = "acc" then Except.ok ⟨some "Title", some "acc", none⟩
      else Except.error "unreachable"
    source := fun _ => Except.ok [mkMsg 8 dtLate none, mkMsg 7 dtMid none]
    clientDownload := fun _ => Except.ok none
    getMessages := fun _ _ => Except.ok none
    sinceDate := fun _ => dtSince
    trackingFile := FileState.absent
    save := fun _ => Except.ok () }

/-- A loaded mapping holding watermark 5 for channel 1. -/
def trW5 : Tracking := fun k => if k = 1 then some 5 else none

/-- The corpus emitted by channel `acc` of `envA` in cursor mode from
watermark 5. -/
def c1msgs : List Normalized :=
  match processChannel envA 100 24 trW5 "acc" with
  | Except.ok p => p.1
  | Except.error _ => []

/-- The tracking mapping after that step. -/
def c1tr : Tracking :=
  match processChannel envA 100 24 trW5 "acc" with
  | Except.ok p => p.2
  | Except.error _ => trW5

/-- Witness for C1 at `envA`: from watermark 5 the step emits ids 8 and 7
and the entry becomes `max(5, 8, 7) = 8`. -/
theorem c1_cursor_watermark_witness :
    c1tr 1 = some 8 ∧ c1msgs.map (fun n => n.id) = [8, 7] := by
  have hrun : processChannel envA 100 24 trW5 "acc" =
      Except.ok (c1msgs, c1tr) := rfl
  have h := c1_cursor_watermark envA 100 24 trW5 "acc" ⟨1⟩ 5 c1msgs c1tr
    rfl rfl (by decide) hrun
  have h2 := (h.2 (by decide)).1
  exact ⟨h2.trans (by decide), by decide⟩

/-- Witness for C2 at `envA` with the channel listed twice: the corpus still
holds each (channel, id) pair once — ids `[7, 8]` after the date sort. -/
theorem c2_no_duplicates_witness :
    (runCorpusFrom envA ["acc", "acc"] 100 24 emptyTracking).Pairwise
      distinctPair ∧
    (runCorpusFrom envA ["acc", "acc"] 100 24 emptyTracking).map
      (fun n => n.id) = [7, 8] := by
  refine ⟨?_, by decide⟩
  exact (c2_no_duplicates envA ["acc", "acc"] 100 24 emptyTracking
    (fun cid history h => by
      have h' : Except.ok [mkMsg 8 dtLate none, mkMsg 7 dtMid none] =
          Except.ok history := h
      injection h' with h2
      subst h2
      exact ⟨by decide, by decide⟩)).1

/-- Witness for C7 at `envA`. -/
theorem c7_corpus_sorted_witness :
    List.Sorted (fun a b : Normalized => a.date.toKey ≤ b.date.toKey)
      (runCorpusFrom envA ["acc", "acc"] 100 24 emptyTracking) :=
  c7_corpus_sorted envA ["acc", "acc"] 100 24 emptyTracking
    (fun cid history m h hm => by
      have h' : Except.ok [mkMsg 8 dtLate none, mkMsg 7 dtMid none] =
          Except.ok history := h
      injection h' with h2
      subst h2
      fin_cases hm <;> decide)

/-- One failing channel `ay` and one accessible channel `bee` (entity id 2)
with three recent messages. -/
def envB : Env :=
  { getEntity := fun u =>
      if u = "bee" then Except.ok ⟨2⟩ else Except.error "unreachable"
    getChannelInfo := fun u =>
      if u = "bee" then Except.ok ⟨some "B", some "bee", none⟩
      else Except.error "unreachable"
    source := fun _ => Except.ok
      [mkMsg 3 dtLate none, mkMsg 2 dtMid none, mkMsg 1 dtMid2 none]
    clientDownload := fun _ => Except.ok none
    getMessages := fun _ _ => Except.ok none
    sinceDate := fun _ => dtSince
    trackingFile := FileState.absent
    save := fun _ => Except.ok () }

/-- Witness for C8: given channels `[ay (fails), bee (3 messages)]`, the
failing channel is skipped with nothing changed, and the corpus holds
exactly the three records of `bee`. -/
theorem c8_failed_channel_skipped_witness :
    processChannel envB 100 24 emptyTracking "ay" =
      Except.error "unreachable" ∧
    collectChannels envB 100 24 ["ay", "bee"] emptyTracking =
      collectChannels envB 100 24 ["bee"] emptyTracking ∧
    (runCorpusFrom envB ["ay", "bee"] 100 24 emptyTracking).map
      (fun n => n.id) = [1, 2, 3] ∧
    (runCorpusFrom envB ["ay", "bee"] 100 24 emptyTracking).map
      (fun n => n.channelId) = [2, 2, 2] := by
  refine ⟨rfl, ?_, by decide, by decide⟩
  exact c8_failed_channel_skipped envB 100 24 emptyTracking "ay" ["bee"]
    "unreachable" rfl

/-- Channel `cee` (entity id 1) whose history holds messages 7 and 6; used
with the stored watermark 5. -/
def envC3 : Env :=
  { getEntity := fun u =>
      if u = "cee" then Except.ok ⟨1⟩ else Except.error "unreachable"
    getChannelInfo := fun u =>
      if u = "cee" then Except.ok ⟨some "C", some "cee", none⟩
      else Except.error "unreachable"
    source := fun _ => Except.ok [mkMsg 7 dtLate none, mkMsg 6 dtMid none]
    clientDownload := fun _ => Except.ok none
    getMessages := fun _ _ => Except.ok none
    sinceDate := fun _ => dtSince
    trackingFile := FileState.absent
    save := fun _ => Except.ok () }

/-- **C3** (code bug) With stored watermark `W = 5` and a history holding
messages 6 and 7, the code requests `min_id = last_message_id + 1 = 6`;
since the Telegram API treats `min_id` as an exclusive lower bound, the
fetch returns only message 7: message `W + 1 = 6` — which the claim and the
spec say must be fetched — is skipped and never enters the corpus. -/
theorem c3_skips_watermark_successor :
    fetchedFor 100 trW5 1 [mkMsg 7 dtLate none, mkMsg 6 dtMid none] =
      [mkMsg 7 dtLate none] ∧
    (runCorpusFrom envC3 ["cee"] 100 24 trW5).map (fun n => n.id) = [7] := by
  exact ⟨by decide, by decide⟩

/-- Channel `dee` (entity id 1) whose newest message carries a photo whose
download raises; the second message has no media. -/
def envC6 : Env :=
  { getEntity := fun u =>
      if u = "dee" then Except.ok ⟨1⟩ else Except.error "unreachable"
    getChannelInfo := fun u =>
      if u = "dee" then Except.ok ⟨some "D", some "dee", none⟩
      else Except.error "unreachable"
    source := fun _ => Except.ok
      [mkMsg 10 dtLate (some MediaPayload.photo), mkMsg 9 dtMid none]
    clientDownload := fun _ => Except.error "download failed"
    getMessages := fun _ _ => Except.ok none
    sinceDate := fun _ => dtSince
    trackingFile := FileState.absent
    save := fun _ => Except.ok () }

/-- **C6** (code bug) `download_media` carries no exception handler, so the
failing download of message 10's photo propagates to the per-channel
handler: the whole channel is aborted — message 10 is not kept with null
media fields, message 9 of the same channel is dropped too, and the
watermark entry is never initialized. -/
theorem c6_media_failure_drops_channel :
    processChannel envC6 100 24 emptyTracking "dee" =
      Except.error "download failed" ∧
    runCorpusFrom envC6 ["dee"] 100 24 emptyTracking = [] ∧
    finalTrackingFrom envC6 ["dee"] 100 24 emptyTracking 1 = none :=
  ⟨rfl, rfl, rfl⟩

/-- An environment whose watermark file write always raises. -/
def envS1 : Env :=
  { getEntity := fun _ => Except.error "unreachable"
    getChannelInfo := fun _ => Except.error "unreachable"
    source := fun _ => Except.ok []
    clientDownload := fun _ => Except.ok none
    getMessages := fun _ _ => Except.ok none
    sinceDate := fun _ => dtSince
    trackingFile := FileState.absent
    save := fun _ => Except.error "disk full" }

/-- **C5** counterexample: the final watermark write raises, yet the run
still returns the corpus — the failure is not surfaced as a run-level
outcome, contrary to the claim. -/
theorem c5_counterexample :
    envS1.save (finalTrackingFrom envS1 [] 100 24
      (loadLastMessageTracking envS1.trackingFile)) =
        Except.error "disk full" ∧
    getNewMessagesWithoutDuplication envS1 [] 100 24 = Except.ok [] :=
  ⟨rfl, rfl⟩

/-- A second environment with a failing watermark write. -/
def envS2 : Env :=
  { getEntity := fun _ => Except.error "unreachable"
    getChannelInfo := fun _ => Except.error "unreachable"
    source := fun _ => Except.ok []
    clientDownload := fun _ => Except.ok none
    getMessages := fun _ _ => Except.ok none
    sinceDate := fun _ => dtSince
    trackingFile := FileState.absent
    save := fun _ => Except.error "io error" }

/-- Witness for the amended C5. -/
theorem c5_save_failure_swallowed_witness :
    getNewMessagesWithoutDuplication envS2 [] 100 24 = Except.ok [] :=
  c5_save_failure_swallowed envS2 [] 100 24 "io error" rfl

/-- Channel `eff` (entity id 1) with one recent message (id 8) and one
message older than the fallback cutoff (id 7). -/
def envC9 : Env :=
  { getEntity := fun u =>
      if u = "eff" then Except.ok ⟨1⟩ else Except.error "unreachable"
    getChannelInfo := fun u =>
      if u = "eff" then Except.ok ⟨some "F", some "eff", none⟩
      else Except.error "unreachable"
    source := fun _ => Except.ok [mkMsg 8 dtLate none, mkMsg 7 dtOld none]
    clientDownload := fun _ => Except.ok none
    getMessages := fun _ _ => Except.ok none
    sinceDate := fun _ => dtSince
    trackingFile := FileState.absent
    save := fun _ => Except.ok () }

/-- The records emitted by channel `eff` of `envC9` in fallback mode. -/
def c9msgs : List Normalized :=
  match processChannel envC9 100 24 emptyTracking "eff" with
  | Except.ok p => p.1
  | Except.error _ => []

/-- The tracking mapping after that step. -/
def c9tr : Tracking :=
  match processChannel envC9 100 24 emptyTracking "eff" with
  | Except.ok p => p.2
  | Except.error _ => emptyTracking

/-- Witness for C9 at `envC9`: the recent message 8 is retained, the stale
message 7 is excluded. -/
theorem c9_fallback_filter_witness :
    (∃ n ∈ c9msgs, n.id = 8 ∧ n.date = dtLate) ∧
    c9msgs.map (fun n => n.id) = [8] := by
  have hrun : processChannel envC9 100 24 emptyTracking "eff" =
      Except.ok (c9msgs, c9tr) := rfl
  have h := c9_fallback_filter envC9 100 24 emptyTracking "eff" ⟨1⟩
    [mkMsg 8 dtLate none, mkMsg 7 dtOld none] c9msgs c9tr rfl rfl rfl hrun
    (by intro m hm; fin_cases hm <;> decide) (by decide) (by decide)
  refine ⟨?_, by decide⟩
  exact h.2.1 (mkMsg 8 dtLate none) (by decide) (by decide)

/-- Witness for C10 at concrete file states: a well-formed file yields its
stored mapping, a malformed file yields a mapping under which no channel
uses id tracking. -/
theorem c10_load_never_raises_witness :
    loadLastMessageTracking (FileState.wellFormed [(1, 5)]) =
      toTracking [(1, 5)] ∧
    useIdTracking (loadLastMessageTracking FileState.malformed) 1 = false := by
  have h := c10_load_never_raises
  exact ⟨h.2.2.2.1 [(1, 5)],
    h.2.2.2.2 FileState.malformed 1 (Or.inr (Or.inr rfl))⟩
